import Mathlib


/-
  Verification development for the certgen repository (github.com/erfianugrah/certgen).

  The Go sources are shallowly embedded: pure repository functions become Lean
  functions; nondeterministic inputs (the secure random source and the clock)
  become explicit arguments; Go pointers that may be nil become Option;
  fallible functions return Except.

  External Go standard-library primitives (crypto/x509 DER marshalling,
  encoding/pem, encoding/base64, crypto/rsa key generation) are modelled by
  concrete executable Lean functions that are faithful to the library
  contracts the repository relies on: serialisation is injective with a
  matching parser, base64 is RFC 4648 standard-alphabet encoding, PEM wraps a
  labelled base64 payload, and the PEM decoder does not validate the label
  (exactly as Go's pem.Decode does not).  Byte strings are List Nat with
  entries below 256.
-/


namespace Certgen


/-! ## Byte-level serialisation primitives (model of DER marshalling) -/


/-- Base-256 little-endian digits of a natural number, empty for zero. -/
def natToDigits : Nat → List Nat
  | 0 => []
  | n + 1 => (n + 1) % 256 :: natToDigits ((n + 1) / 256)
decreasing_by omega


/-- Reassemble a natural number from base-256 little-endian digits. -/
def digitsToNat : List Nat → Nat
  | [] => 0
  | d :: ds => d + 256 * digitsToNat ds


/-- Length marker: a run of 1-bytes terminated by a 0-byte encodes a count. -/
def splitMarker : List Nat → Option (Nat × List Nat)
  | 0 :: rest => some (0, rest)
  | 1 :: rest =>
    match splitMarker rest with
    | some (k, r) => some (k + 1, r)
    | none => none
  | _ => none


/-- Self-delimiting encoding of a natural number: unary digit count, then digits. -/
def writeNat (n : Nat) : List Nat :=
  List.replicate (natToDigits n).length 1 ++ 0 :: natToDigits n


/-- Parser for `writeNat`, returning the value and the remaining input. -/
def readNat (l : List Nat) : Option (Nat × List Nat) :=
  match splitMarker l with
  | some (k, r) => if k ≤ r.length then some (digitsToNat (r.take k), r.drop k) else none
  | none => none


/-- Signed integer encoding: a sign byte followed by the magnitude. -/
def writeInt (i : Int) : List Nat :=
  (if i < 0 then 1 else 0) :: writeNat i.natAbs


/-- Parser for `writeInt`. -/
def readInt : List Nat → Option (Int × List Nat)
  | 0 :: r =>
    match readNat r with
    | some (n, rest) => some ((n : Int), rest)
    | none => none
  | 1 :: r =>
    match readNat r with
    | some (n, rest) => some (-(n : Int), rest)
    | none => none
  | _ => none


/-- Boolean encoding as a single byte. -/
def writeBool (b : Bool) : List Nat := [if b then 1 else 0]


/-- Parser for `writeBool`. -/
def readBool : List Nat → Option (Bool × List Nat)
  | 0 :: r => some (false, r)
  | 1 :: r => some (true, r)
  | _ => none


/-! ## Strings and lists of strings -/


/-- One character, written as its unicode scalar value. -/
def writeChar (c : Char) : List Nat := writeNat c.toNat


/-- Parser for `writeChar`. -/
def readChar (l : List Nat) : Option (Char × List Nat) :=
  match readNat l with
  | some (n, rest) => some (Char.ofNat n, rest)
  | none => none


/-- A run of exactly `k` characters. -/
def readCountChar : Nat → List Nat → Option (List Char × List Nat)
  | 0, l => some ([], l)
  | k + 1, l =>
    match readChar l with
    | some (c, r) =>
      match readCountChar k r with
      | some (cs, r2) => some (c :: cs, r2)
      | none => none
    | none => none


/-- Length-prefixed string encoding. -/
def writeString (s : String) : List Nat :=
  writeNat s.data.length ++ (s.data.map writeChar).flatten


/-- Parser for `writeString`. -/
def readString (l : List Nat) : Option (String × List Nat) :=
  match readNat l with
  | some (k, r) =>
    match readCountChar k r with
    | some (cs, r2) => some (String.mk cs, r2)
    | none => none
  | none => none


/-- A run of exactly `k` strings. -/
def readCountString : Nat → List Nat → Option (List String × List Nat)
  | 0, l => some ([], l)
  | k + 1, l =>
    match readString l with
    | some (s, r) =>
      match readCountString k r with
      | some (ss, r2) => some (s :: ss, r2)
      | none => none
    | none => none


/-- Length-prefixed encoding of a list of strings. -/
def writeStringList (ss : List String) : List Nat :=
  writeNat ss.length ++ (ss.map writeString).flatten


/-- Parser for `writeStringList`. -/
def readStringList (l : List Nat) : Option (List String × List Nat) :=
  match readNat l with
  | some (k, r) => readCountString k r
  | none => none


/-! ## x509 data model (crypto/x509 as used by the repository) -/


/-- Extended key usage purposes used by the repository's templates
(`x509.ExtKeyUsageServerAuth`, `x509.ExtKeyUsageClientAuth`). -/
inductive ExtKeyUsagePurpose where
  | serverAuth
  | clientAuth
deriving DecidableEq


/-- Numeric code of an extended key usage purpose, for serialisation. -/
def ekuCode : ExtKeyUsagePurpose → Nat
  | .serverAuth => 1
  | .clientAuth => 2


/-- Serialised extended key usage purpose. -/
def writeEKU (u : ExtKeyUsagePurpose) : List Nat := writeNat (ekuCode u)


/-- Parser for `writeEKU`. -/
def readEKU (l : List Nat) : Option (ExtKeyUsagePurpose × List Nat) :=
  match readNat l with
  | some (n, rest) =>
    if n = 1 then some (.serverAuth, rest)
    else if n = 2 then some (.clientAuth, rest)
    else none
  | none => none


/-- A run of exactly `k` extended key usage purposes. -/
def readCountEKU : Nat → List Nat → Option (List ExtKeyUsagePurpose × List Nat)
  | 0, l => some ([], l)
  | k + 1, l =>
    match readEKU l with
    | some (u, r) =>
      match readCountEKU k r with
      | some (us, r2) => some (u :: us, r2)
      | none => none
    | none => none


/-- Length-prefixed encoding of a list of extended key usage purposes. -/
def writeEKUList (us : List ExtKeyUsagePurpose) : List Nat :=
  writeNat us.length ++ (us.map writeEKU).flatten


/-- Parser for `writeEKUList`. -/
def readEKUList (l : List Nat) : Option (List ExtKeyUsagePurpose × List Nat) :=
  match readNat l with
  | some (k, r) => readCountEKU k r
  | none => none


/-- Distinguished name, mirroring `pkix.Name` in the fields the repository sets. -/
structure PkixName where
  Country : List String
  Province : List String
  Locality : List String
  Organization : List String
  OrganizationalUnit : List String
  CommonName : String
deriving DecidableEq


/-- Serialised distinguished name. -/
def writeName (n : PkixName) : List Nat :=
  writeStringList n.Country ++ writeStringList n.Province ++ writeStringList n.Locality ++
    writeStringList n.Organization ++ writeStringList n.OrganizationalUnit ++
    writeString n.CommonName


/-- Parser for `writeName`. -/
def readName (l : List Nat) : Option (PkixName × List Nat) :=
  match readStringList l with
  | some (country, r1) =>
    match readStringList r1 with
    | some (province, r2) =>
      match readStringList r2 with
      | some (locality, r3) =>
        match readStringList r3 with
        | some (organization, r4) =>
          match readStringList r4 with
          | some (orgUnit, r5) =>
            match readString r5 with
            | some (commonName, r6) =>
              some (⟨country, province, locality, organization, orgUnit, commonName⟩, r6)
            | none => none
          | none => none
        | none => none
      | none => none
    | none => none
  | none => none


/-- Parsed X.509 certificate, mirroring the `x509.Certificate` fields the
repository reads or sets.  `PublicKeyId` identifies the subject key and
`SignedById` identifies the public key matching the private key that produced
the signature: together they model signature verification, which succeeds
exactly when the verifying certificate carries the signing key pair's public
key. `Raw` is the complete DER encoding, authoritative for re-encoding. -/
structure Certificate where
  Raw : List Nat
  SerialNumber : Nat
  Subject : PkixName
  Issuer : PkixName
  NotBefore : Int
  NotAfter : Int
  KeyUsage : Nat
  ExtKeyUsage : List ExtKeyUsagePurpose
  BasicConstraintsValid : Bool
  IsCA : Bool
  DNSNames : List String
  PublicKeyId : Nat
  SignedById : Nat
deriving DecidableEq


/-- Leading tag byte distinguishing certificate DER from other DER payloads
(in real ASN.1 the structures differ; a tag models that). -/
def certTag : Nat := 67


/-- DER body of a certificate: every field except `Raw`, tagged. -/
def certBody (c : Certificate) : List Nat :=
  certTag :: (writeNat c.SerialNumber ++ writeName c.Subject ++ writeName c.Issuer ++
    writeInt c.NotBefore ++ writeInt c.NotAfter ++ writeNat c.KeyUsage ++
    writeEKUList c.ExtKeyUsage ++ writeBool c.BasicConstraintsValid ++
    writeBool c.IsCA ++ writeStringList c.DNSNames ++ writeNat c.PublicKeyId ++
    writeNat c.SignedById)


/-- Model of Go `x509.ParseCertificate`: decodes certificate DER, rejecting
payloads that are not certificate structures (wrong tag, malformed fields, or
trailing data); on success `Raw` is the full input, as in Go. -/
def ParseCertificate (bs : List Nat) : Option Certificate :=
  match bs with
  | t :: r =>
    if t = certTag then
      match readNat r with
      | some (serial, r1) =>
        match readName r1 with
        | some (subject, r2) =>
          match readName r2 with
          | some (issuer, r3) =>
            match readInt r3 with
            | some (notBefore, r4) =>
              match readInt r4 with
              | some (notAfter, r5) =>
                match readNat r5 with
                | some (keyUsage, r6) =>
                  match readEKUList r6 with
                  | some (eku, r7) =>
                    match readBool r7 with
                    | some (bcv, r8) =>
                      match readBool r8 with
                      | some (isCA, r9) =>
                        match readStringList r9 with
                        | some (dnsNames, r10) =>
                          match readNat r10 with
                          | some (pubId, r11) =>
                            match readNat r11 with
                            | some (sigId, r12) =>
                              match r12 with
                              | [] => some ⟨bs, serial, subject, issuer, notBefore,
                                  notAfter, keyUsage, eku, bcv, isCA, dnsNames,
                                  pubId, sigId⟩
                              | _ => none
                            | none => none
                          | none => none
                        | none => none
                      | none => none
                    | none => none
                  | none => none
                | none => none
              | none => none
            | none => none
          | none => none
        | none => none
      | none => none
    else none
  | [] => none


/-- The certificate as it comes back from parsing its own body. -/
def parsedCert (c : Certificate) : Certificate := { c with Raw := certBody c }


/-! ## Base64 (model of Go encoding/base64 StdEncoding) -/


/-- The character at an index of the standard base64 alphabet. -/
def b64char (i : Nat) : Nat :=
  if i < 26 then 65 + i
  else if i < 52 then 71 + i
  else if i < 62 then i - 4
  else if i = 62 then 43
  else 47


/-- Index of a byte in the standard base64 alphabet (63 for unknown bytes;
never consulted beyond valid input in the proofs below). -/
def b64index (c : Nat) : Nat :=
  if 65 ≤ c ∧ c ≤ 90 then c - 65
  else if 97 ≤ c ∧ c ≤ 122 then c - 71
  else if 48 ≤ c ∧ c ≤ 57 then c + 4
  else if c = 43 then 62
  else 63


/-- Standard base64 encoding of a byte sequence, with padding, no line breaks. -/
def base64Encode : List Nat → List Nat
  | [] => []
  | [a] => [b64char (a / 4), b64char (a % 4 * 16), 61, 61]
  | [a, b] => [b64char (a / 4), b64char (a % 4 * 16 + b / 16), b64char (b % 16 * 4), 61]
  | a :: b :: c :: rest =>
    b64char (a / 4) :: b64char (a % 4 * 16 + b / 16) :: b64char (b % 16 * 4 + c / 64) ::
      b64char (c % 64) :: base64Encode rest


/-- Base64 decoding, the inverse of `base64Encode` on its image. -/
def base64Decode : List Nat → Option (List Nat)
  | [] => some []
  | c1 :: c2 :: c3 :: c4 :: rest =>
    if rest.isEmpty && c4 == 61 then
      if c3 == 61 then some [b64index c1 * 4 + b64index c2 / 16]
      else some [b64index c1 * 4 + b64index c2 / 16, b64index c2 % 16 * 16 + b64index c3 / 4]
    else
      match base64Decode rest with
      | some tail => some ((b64index c1 * 4 + b64index c2 / 16) ::
          (b64index c2 % 16 * 16 + b64index c3 / 4) ::
          (b64index c3 % 4 * 64 + b64index c4) :: tail)
      | none => none
  | _ => none


/-! ## PEM envelopes (model of Go encoding/pem) -/


/-- Bytes of the text "-----BEGIN " (ASCII). -/
def pemBeginMark : List Nat := [45, 45, 45, 45, 45, 66, 69, 71, 73, 78, 32]


/-- Bytes of the text "-----END " (ASCII). -/
def pemEndMark : List Nat := [45, 45, 45, 45, 45, 69, 78, 68, 32]


/-- Bytes of the text "-----" followed by a newline. -/
def pemDashesNL : List Nat := [45, 45, 45, 45, 45, 10]


/-- Bytes of the label "CERTIFICATE" (ASCII). -/
def certificateLabel : List Nat := [67, 69, 82, 84, 73, 70, 73, 67, 65, 84, 69]


/-- Bytes of the label "PRIVATE KEY" (ASCII). -/
def privateKeyLabel : List Nat := [80, 82, 73, 86, 65, 84, 69, 32, 75, 69, 89]


/-- Model of Go `pem.EncodeToMemory`: BEGIN line with the block label, the
base64 payload, and the END line (Go wraps the base64 at 64 columns; the wrap
changes no claim because encoding stays deterministic and injective, so it is
omitted here). -/
def pemEncodeToMemory (label : List Nat) (bytes : List Nat) : List Nat :=
  pemBeginMark ++ label ++ pemDashesNL ++ base64Encode bytes ++ 10 :: pemEndMark ++
    label ++ pemDashesNL


/-- Consume an expected literal, returning the rest of the input. -/
def dropLit : List Nat → List Nat → Option (List Nat)
  | [], l => some l
  | _ :: _, [] => none
  | p :: ps, b :: bs => if b = p then dropLit ps bs else none


/-- Model of Go `pem.Decode` on the envelopes this program produces: it
returns the block label and decoded payload and, exactly like Go, it performs
no validation of the label value itself.  Trailing data after the END line is
ignored (Go returns it as the rest). -/
def pemDecode (input : List Nat) : Option (List Nat × List Nat) :=
  match dropLit pemBeginMark input with
  | none => none
  | some r1 =>
    let label := r1.takeWhile (fun b => !(b == 45))
    let r2 := r1.dropWhile (fun b => !(b == 45))
    match dropLit pemDashesNL r2 with
    | none => none
    | some r3 =>
      let b64 := r3.takeWhile (fun b => !(b == 10))
      let r4 := r3.dropWhile (fun b => !(b == 10))
      match dropLit (10 :: pemEndMark) r4 with
      | none => none
      | some r5 =>
        match dropLit (label ++ pemDashesNL) r5 with
        | none => none
        | some _ =>
          match base64Decode b64 with
          | some bytes => some (label, bytes)
          | none => none


/-! ## RSA keys (model of crypto/rsa) -/


/-- An RSA private key.  `KeyId` identifies the key material drawn from the
random source (the matching public key carries the same identifier) and
`Bits` is the modulus bit length. -/
structure RSAPrivateKey where
  KeyId : Nat
  Bits : Int
deriving DecidableEq


/-- Model of the Go `rsa.GenerateKey(rand.Reader, bits)` contract: a fresh key
whose modulus bit length equals the requested number of bits, determined by
the entropy drawn from the random source. -/
def rsaGenerateKey (seed : Nat) (bits : Int) : RSAPrivateKey :=
  { KeyId := seed, Bits := bits }


/-- Leading tag byte distinguishing PKCS#8 private-key DER from certificate
DER (the real ASN.1 structures differ; a distinct tag models that). -/
def pkcs8Tag : Nat := 75


/-- Model of Go `x509.MarshalPKCS8PrivateKey` for RSA keys: an injective DER
encoding of the key material. -/
def MarshalPKCS8PrivateKey (key : RSAPrivateKey) : List Nat :=
  pkcs8Tag :: (writeNat key.KeyId ++ writeInt key.Bits)


/-- Model of Go `x509.ParsePKCS8PrivateKey`: inverse of
`MarshalPKCS8PrivateKey`, rejecting payloads that are not PKCS#8 structures.
Every key this program handles is RSA, so the caller's RSA type assertion
always succeeds on a parsed key. -/
def ParsePKCS8PrivateKey (bs : List Nat) : Option RSAPrivateKey :=
  match bs with
  | t :: r =>
    if t = pkcs8Tag then
      match readNat r with
      | some (keyId, r1) =>
        match readInt r1 with
        | some (bits, r2) =>
          match r2 with
          | [] => some ⟨keyId, bits⟩
          | _ => none
        | none => none
      | none => none
    else none
  | [] => none


/-! ## pkg/encoding (src/pkg/encoding/encoding.go) -/


/-- Errors returned by the embedded functions, mirroring the repository's
`fmt.Errorf` messages. -/
inductive GoError where
  | nilCertificate
  | nilKey
  | nilConfig
  | invalidKeySize
  | malformedPEM
  | parseFailed
deriving DecidableEq


/-- Embeds `EncodeCertificateToPEM` (encoding.go lines 13 to 22): nil check, then a
PEM block labelled "CERTIFICATE" around the raw certificate bytes. -/
def EncodeCertificateToPEM : Option Certificate → Except GoError (List Nat)
  | none => .error .nilCertificate
  | some cert => .ok (pemEncodeToMemory certificateLabel cert.Raw)


/-- Embeds `EncodePrivateKeyToPEM` (encoding.go lines 24 to 38): nil check, PKCS#8
marshalling, then a PEM block labelled "PRIVATE KEY". -/
def EncodePrivateKeyToPEM : Option RSAPrivateKey → Except GoError (List Nat)
  | none => .error .nilKey
  | some key => .ok (pemEncodeToMemory privateKeyLabel (MarshalPKCS8PrivateKey key))


/-- Embeds `EncodeDERToBase64` (encoding.go lines 48 to 50): standard base64 text of
the DER bytes. -/
def EncodeDERToBase64 (derData : List Nat) : List Nat :=
  base64Encode derData


/-- Result of `ConvertCertificateToBase64DER`, which returns a value with a
literally nil error; dereferencing a nil certificate argument is a runtime
panic, not an error return. -/
inductive ConvResult where
  | ok : List Nat → ConvResult
  | nilDereference : ConvResult
deriving DecidableEq


/-- Embeds `ConvertCertificateToBase64DER` (encoding.go lines 52 to 54): reads
`cert.Raw` with no nil check (a nil argument dereferences a nil pointer), and
returns the base64 text paired with a nil error. -/
def ConvertCertificateToBase64DER : Option Certificate → ConvResult
  | none => .nilDereference
  | some cert => .ok (EncodeDERToBase64 cert.Raw)


/-- Embeds `DecodePEMCertificate` (encoding.go lines 56 to 68): PEM-decode, then
parse the block bytes as a certificate.  The block label is never examined. -/
def DecodePEMCertificate (pemData : List Nat) : Except GoError Certificate :=
  match pemDecode pemData with
  | none => .error .malformedPEM
  | some (_label, bytes) =>
    match ParseCertificate bytes with
    | none => .error .parseFailed
    | some cert => .ok cert


/-- Embeds `DecodePEMPrivateKey` (encoding.go lines 70 to 87): PEM-decode, parse as
PKCS#8, then assert the RSA key type (which always holds in this model, where
every parsed key is RSA). -/
def DecodePEMPrivateKey (pemData : List Nat) : Except GoError RSAPrivateKey :=
  match pemDecode pemData with
  | none => .error .malformedPEM
  | some (_label, bytes) =>
    match ParsePKCS8PrivateKey bytes with
    | none => .error .parseFailed
    | some key => .ok key


/-! ## pkg/config (the config package embedded in the repository) -/


/-- Embeds `config.CertificateConfig`. -/
structure CertificateConfig where
  Domain : String
  Country : String
  State : String
  Locality : String
  Organization : String
  OrganizationalUnit : String
  ValidityDays : Int
  KeySize : Int
  PKCS12Password : String
deriving DecidableEq


/-- Embeds `config.Subject`. -/
structure Subject where
  Country : String
  State : String
  Locality : String
  Organization : String
  OrganizationalUnit : String
  CommonName : String
deriving DecidableEq


/-- Embeds `config.CertificateOptions`.  `ValidFrom` is a timestamp and `ValidFor` a
`time.Duration`, both in nanoseconds. -/
structure CertificateOptions where
  Subject : Subject
  DNSNames : List String
  ValidFrom : Int
  ValidFor : Int
  IsCA : Bool
  KeyUsage : List String
  ExtKeyUsage : List String
deriving DecidableEq


/-- Nanoseconds in `time.Hour`. -/
def nsPerHour : Int := 3600000000000


/-- Embeds `config.NewCertificateConfig`: documented defaults. -/
def NewCertificateConfig : CertificateConfig :=
  { Domain := ""
    Country := "SG"
    State := "Singapore"
    Locality := "Singapore"
    Organization := "Erfi Corp"
    OrganizationalUnit := "Erfi Proxy"
    ValidityDays := 3650
    KeySize := 4096
    PKCS12Password := "yourPKCS12Password" }


/-- Embeds `CertificateConfig.GetRootCAOptions`.  The call to `time.Now()` becomes
the explicit `now` argument. -/
def CertificateConfig.GetRootCAOptions (c : CertificateConfig) (now : Int) :
    CertificateOptions :=
  { Subject :=
      { Country := c.Country
        State := c.State
        Locality := c.Locality
        Organization := c.Organization
        OrganizationalUnit := c.OrganizationalUnit
        CommonName := c.Domain }
    DNSNames := [c.Domain]
    ValidFrom := now
    ValidFor := 1024 * 24 * nsPerHour
    IsCA := true
    KeyUsage := ["keyCertSign", "cRLSign"]
    ExtKeyUsage := [] }


/-- Embeds `CertificateConfig.GetLeafCertOptions`.  The call to `time.Now()` becomes
the explicit `now` argument. -/
def CertificateConfig.GetLeafCertOptions (c : CertificateConfig) (now : Int) :
    CertificateOptions :=
  { Subject :=
      { Country := c.Country
        State := c.State
        Locality := c.Locality
        Organization := c.Organization
        OrganizationalUnit := c.OrganizationalUnit
        CommonName := c.Domain }
    DNSNames := [c.Domain]
    ValidFrom := now
    ValidFor := c.ValidityDays * 24 * nsPerHour
    IsCA := false
    KeyUsage := ["digitalSignature", "nonRepudiation", "keyEncipherment", "dataEncipherment"]
    ExtKeyUsage := ["serverAuth", "clientAuth"] }


/-! ## crypto/x509 creation and verification (library model) -/


/-- Go `x509.KeyUsageDigitalSignature` (bit 0 of the key usage bitmask). -/
def KeyUsageDigitalSignature : Nat := 1


/-- Go `x509.KeyUsageKeyEncipherment` (bit 2). -/
def KeyUsageKeyEncipherment : Nat := 4


/-- Go `x509.KeyUsageCertSign` (bit 5). -/
def KeyUsageCertSign : Nat := 32


/-- Go `x509.KeyUsageCRLSign` (bit 6). -/
def KeyUsageCRLSign : Nat := 64


/-- Nanoseconds per second; X.509 stores validity times at second precision,
so certificate creation truncates `time.Time` values to whole seconds. -/
def nsPerSecond : Int := 1000000000


/-- Truncation of a timestamp to whole seconds (floor, as in Go's `time.Time`
second/nanosecond representation). -/
def truncSec (t : Int) : Int := t - t % nsPerSecond


/-- The fields `x509.CreateCertificate` takes from the template versus from
its other arguments: all template fields are kept except that validity times
are truncated to seconds, the issuer name is taken from the parent
certificate's subject, the subject public key comes from the `pub` argument
and the signature is produced by the `priv` argument (recorded as the
identifier of its public key). -/
def applySign (template parent : Certificate) (pubId sigId : Nat) : Certificate :=
  { template with
    NotBefore := truncSec template.NotBefore
    NotAfter := truncSec template.NotAfter
    Issuer := parent.Subject
    PublicKeyId := pubId
    SignedById := sigId }


/-- Model of Go `x509.CreateCertificate(rand, template, parent, pub, priv)`:
the DER encoding of the signed certificate. -/
def CreateCertificate (template parent : Certificate) (pubId sigId : Nat) : List Nat :=
  certBody (applySign template parent pubId sigId)


/-- Model of Go `Certificate.CheckSignatureFrom(parent)`: the constraint
checks Go performs (parent must be a CA when basic constraints are valid, and
must allow certificate signing when it carries a key usage), then signature
verification, which succeeds exactly when the signature was produced by the
key pair whose public key the parent certificate carries. -/
def CheckSignatureFrom (c parent : Certificate) : Bool :=
  !(parent.BasicConstraintsValid && !parent.IsCA) &&
    (parent.KeyUsage == 0 || parent.KeyUsage &&& KeyUsageCertSign != 0) &&
    (c.SignedById == parent.PublicKeyId)


/-! ## pkg/certificate (src/cmd/certgen/main.go, certificate package section) -/


/-- The random and clock draws one generator call makes: entropy for
`rsa.GenerateKey`, entropy for the serial number, and the `time.Now()`
reading made while building the options record. -/
structure Entropy where
  KeySeed : Nat
  SerialSeed : Nat
  Now : Int


/-- Embeds `certificate.Generator`: holds a configuration pointer that may be nil. -/
structure Generator where
  config : Option CertificateConfig


/-- Embeds `certificate.NewGenerator`. -/
def NewGenerator (cfg : Option CertificateConfig) : Generator := ⟨cfg⟩


/-- Embeds `Generator.GeneratePrivateKey` (main.go lines 186 to 198): nil-config
check, minimum key size check, then `rsa.GenerateKey` with the configured
size. -/
def Generator.GeneratePrivateKey (g : Generator) (seed : Nat) :
    Except GoError RSAPrivateKey :=
  match g.config with
  | none => .error .nilConfig
  | some cfg =>
    if cfg.KeySize < 1024 then .error .invalidKeySize
    else .ok (rsaGenerateKey seed cfg.KeySize)


/-- An empty `pkix.Name`: template fields the Go code leaves at their zero
value. -/
def zeroPkixName : PkixName := ⟨[], [], [], [], [], ""⟩


/-- The root CA certificate template (main.go lines 213 to 230): subject from
the options, validity from `ValidFrom`/`ValidFor`, key usage certSign and
cRLSign, extended key usage serverAuth, `BasicConstraintsValid` and `IsCA`
set. -/
def rootCATemplate (opts : CertificateOptions) (serialNumber : Nat) : Certificate :=
  { Raw := []
    SerialNumber := serialNumber
    Subject :=
      { Country := [opts.Subject.Country]
        Province := [opts.Subject.State]
        Locality := [opts.Subject.Locality]
        Organization := [opts.Subject.Organization]
        OrganizationalUnit := [opts.Subject.OrganizationalUnit]
        CommonName := opts.Subject.CommonName }
    Issuer := zeroPkixName
    NotBefore := opts.ValidFrom
    NotAfter := opts.ValidFrom + opts.ValidFor
    KeyUsage := KeyUsageCertSign ||| KeyUsageCRLSign
    ExtKeyUsage := [.serverAuth]
    BasicConstraintsValid := true
    IsCA := true
    DNSNames := opts.DNSNames
    PublicKeyId := 0
    SignedById := 0 }


/-- The leaf certificate template (main.go lines 258 to 273): key usage
digitalSignature and keyEncipherment, extended key usage serverAuth and
clientAuth, no CA fields set (they stay at their zero value `false`). -/
def leafTemplate (opts : CertificateOptions) (serialNumber : Nat) : Certificate :=
  { Raw := []
    SerialNumber := serialNumber
    Subject :=
      { Country := [opts.Subject.Country]
        Province := [opts.Subject.State]
        Locality := [opts.Subject.Locality]
        Organization := [opts.Subject.Organization]
        OrganizationalUnit := [opts.Subject.OrganizationalUnit]
        CommonName := opts.Subject.CommonName }
    Issuer := zeroPkixName
    NotBefore := opts.ValidFrom
    NotAfter := opts.ValidFrom + opts.ValidFor
    KeyUsage := KeyUsageDigitalSignature ||| KeyUsageKeyEncipherment
    ExtKeyUsage := [.serverAuth, .clientAuth]
    BasicConstraintsValid := false
    IsCA := false
    DNSNames := opts.DNSNames
    PublicKeyId := 0
    SignedById := 0 }


/-- Embeds `Generator.GenerateRootCA` (main.go lines 200 to 243): fresh key, root CA
options, 128-bit random serial, self-signed creation (template is its own
parent, signed by the fresh key), then a parse of the produced DER. -/
def Generator.GenerateRootCA (g : Generator) (e : Entropy) :
    Except GoError (Certificate × RSAPrivateKey) :=
  match g.GeneratePrivateKey e.KeySeed with
  | .error err => .error err
  | .ok key =>
    match g.config with
    | none => .error .nilConfig
    | some cfg =>
      let opts := cfg.GetRootCAOptions e.Now
      let serialNumber := e.SerialSeed % 2 ^ 128
      let template := rootCATemplate opts serialNumber
      let certDER := CreateCertificate template template key.KeyId key.KeyId
      match ParseCertificate certDER with
      | none => .error .parseFailed
      | some cert => .ok (cert, key)


/-- Embeds `Generator.GenerateLeafCertificate` (main.go lines 245 to 286): fresh
key, leaf options, independent 128-bit random serial, creation with the CA
certificate as parent signed by the CA key, then a parse of the produced
DER. -/
def Generator.GenerateLeafCertificate (g : Generator) (caCert : Certificate)
    (caKey : RSAPrivateKey) (e : Entropy) :
    Except GoError (Certificate × RSAPrivateKey) :=
  match g.GeneratePrivateKey e.KeySeed with
  | .error err => .error err
  | .ok key =>
    match g.config with
    | none => .error .nilConfig
    | some cfg =>
      let opts := cfg.GetLeafCertOptions e.Now
      let serialNumber := e.SerialSeed % 2 ^ 128
      let template := leafTemplate opts serialNumber
      let certDER := CreateCertificate template caCert key.KeyId caKey.KeyId
      match ParseCertificate certDER with
      | none => .error .parseFailed
      | some cert => .ok (cert, key)


/-! ## pkg/fileio (src/pkg/fileio/fileio.go) -/


/-- Whether `pat` occurs at the start of `l`. -/
def startsWithChars : List Char → List Char → Bool
  | [], _ => true
  | _ :: _, [] => false
  | p :: ps, c :: cs => p == c && startsWithChars ps cs


/-- Whether `pat` occurs anywhere inside `l`, as Go `strings.Contains`. -/
def hasSubChars (pat : List Char) : List Char → Bool
  | [] => startsWithChars pat []
  | c :: cs => startsWithChars pat (c :: cs) || hasSubChars pat cs


/-- Whether `pat` occurs at the end of `l`. -/
def endsWithChars (pat l : List Char) : Bool :=
  pat.length ≤ l.length && l.drop (l.length - pat.length) == pat


/-- Go `strings.Contains(s, sub)`. -/
def goStringsContains (s sub : String) : Bool := hasSubChars sub.data s.data


/-- Embeds `fileio.FileWriter`. -/
structure FileWriter where
  subdomain : String


/-- Embeds `fileio.NewFileWriter`: keeps `strings.Split(domain, ".")[0]`, the part of
the domain before the first dot. -/
def NewFileWriter (domain : String) : FileWriter :=
  ⟨⟨domain.data.takeWhile (fun c => !(c == '.'))⟩⟩


/-- Embeds `FileWriter.GetRootKeyPath`. -/
def FileWriter.GetRootKeyPath (fw : FileWriter) : String := fw.subdomain ++ "_rootCA.key"


/-- Embeds `FileWriter.GetRootCertPath`. -/
def FileWriter.GetRootCertPath (fw : FileWriter) : String := fw.subdomain ++ "_rootCA.pem"


/-- Embeds `FileWriter.GetLeafKeyPath`. -/
def FileWriter.GetLeafKeyPath (fw : FileWriter) : String := fw.subdomain ++ "_leaf.key"


/-- Embeds `FileWriter.GetLeafCertPath`. -/
def FileWriter.GetLeafCertPath (fw : FileWriter) : String := fw.subdomain ++ "_leaf.pem"


/-- Embeds `FileWriter.GetPKCS12Path`. -/
def FileWriter.GetPKCS12Path (fw : FileWriter) : String := fw.subdomain ++ "_certs.p12"


/-- Embeds `FileWriter.GetRootBase64Path`. -/
def FileWriter.GetRootBase64Path (fw : FileWriter) : String :=
  fw.subdomain ++ "_rootCA_base64.txt"


/-- Embeds `FileWriter.GetLeafBase64Path`. -/
def FileWriter.GetLeafBase64Path (fw : FileWriter) : String :=
  fw.subdomain ++ "_leaf_base64.txt"


/-- The observable effect of one `FileWriter.WriteFile` call: the path, the
data, and the unix permission bits passed to `os.WriteFile`. -/
structure FileWrite where
  path : String
  data : List Nat
  perm : Nat
deriving DecidableEq


/-- Embeds `FileWriter.WriteFile` (fileio.go lines 55 to 72): mode 0600 when the
path contains ".key" (via `strings.Contains`), mode 0644 otherwise.  The
directory-creation side effect carries no claim content and is omitted. -/
def FileWriter.WriteFile (_fw : FileWriter) (path : String) (data : List Nat) : FileWrite :=
  { path := path
    data := data
    perm := if goStringsContains path ".key" then 0o600 else 0o644 }



/-! ## Concrete inputs used by the witnesses -/


/-- A small concrete configuration for witnesses. -/
def cfgW : CertificateConfig :=
  { Domain := "a"
    Country := "b"
    State := "c"
    Locality := "d"
    Organization := "e"
    OrganizationalUnit := "f"
    ValidityDays := 1
    KeySize := 1024
    PKCS12Password := "" }


/-- Concrete entropy for the root CA witness call. -/
def entW1 : Entropy := ⟨1, 2, 0⟩


/-- Concrete entropy for the leaf witness call. -/
def entW2 : Entropy := ⟨3, 4, 5⟩


/-- The root CA template arising from `cfgW` and `entW1`. -/
def rootTW : Certificate := rootCATemplate (cfgW.GetRootCAOptions 0) (2 % 2 ^ 128)


/-- The root CA certificate arising from `cfgW` and `entW1`. -/
def caW : Certificate := parsedCert (applySign rootTW rootTW 1 1)


/-- The root CA key arising from `cfgW` and `entW1`. -/
def keyW : RSAPrivateKey := rsaGenerateKey 1 cfgW.KeySize


/-- The leaf template arising from `cfgW` and `entW2`. -/
def leafTW : Certificate := leafTemplate (cfgW.GetLeafCertOptions 5) (4 % 2 ^ 128)


/-- The leaf certificate arising from `cfgW`, `caW`, `keyW` and `entW2`. -/
def leafW : Certificate := parsedCert (applySign leafTW caW 3 1)


/-- The leaf key arising from `cfgW` and `entW2`. -/
def leafKeyW : RSAPrivateKey := rsaGenerateKey 3 cfgW.KeySize


/-- A small concrete certificate value for encoding witnesses. -/
def certSmall : Certificate :=
  parsedCert
    { Raw := []
      SerialNumber := 0
      Subject := zeroPkixName
      Issuer := zeroPkixName
      NotBefore := 0
      NotAfter := 0
      KeyUsage := 0
      ExtKeyUsage := []
      BasicConstraintsValid := false
      IsCA := false
      DNSNames := []
      PublicKeyId := 0
      SignedById := 0 }


/-- A small concrete key value for encoding witnesses. -/
def keySmall : RSAPrivateKey := ⟨5, 1024⟩


theorem digitsToNat_natToDigits (n : Nat) : digitsToNat (natToDigits n) = n := by
  induction n using Nat.strong_induction_on with
  | _ n ih =>
    match n with
    | 0 => simp [natToDigits, digitsToNat]
    | m + 1 =>
      rw [natToDigits, digitsToNat, ih ((m + 1) / 256) (by omega)]
      omega


theorem natToDigits_lt (n : Nat) : ∀ b ∈ natToDigits n, b < 256 := by
  induction n using Nat.strong_induction_on with
  | _ n ih =>
    match n with
    | 0 => intro b hb; simp [natToDigits] at hb
    | m + 1 =>
      intro b hb
      rw [natToDigits] at hb
      rcases List.mem_cons.mp hb with h | h
      · omega
      · exact ih ((m + 1) / 256) (by omega) b h


theorem splitMarker_replicate (k : Nat) (tail : List Nat) :
    splitMarker (List.replicate k 1 ++ 0 :: tail) = some (k, tail) := by
  induction k with
  | zero => rfl
  | succ m ih => simp [List.replicate, splitMarker, ih]


theorem take_len_append (xs ys : List Nat) : (xs ++ ys).take xs.length = xs := by
  induction xs with
  | nil => rfl
  | cons a l ih => simp [ih]


theorem drop_len_append (xs ys : List Nat) : (xs ++ ys).drop xs.length = ys := by
  induction xs with
  | nil => rfl
  | cons a l ih => simp [ih]


@[simp] theorem readNat_writeNat (n : Nat) (rest : List Nat) :
    readNat (writeNat n ++ rest) = some (n, rest) := by
  rw [readNat, writeNat, List.append_assoc, List.cons_append, splitMarker_replicate]
  simp [take_len_append, drop_len_append, digitsToNat_natToDigits]


@[simp] theorem readNat_writeNat_nil (n : Nat) : readNat (writeNat n) = some (n, []) := by
  have := readNat_writeNat n []
  simpa using this


theorem writeNat_lt (n : Nat) : ∀ b ∈ writeNat n, b < 256 := by
  intro b hb
  rw [writeNat] at hb
  rcases List.mem_append.mp hb with h | h
  · have := List.eq_of_mem_replicate h; omega
  · rcases List.mem_cons.mp h with h | h
    · omega
    · exact natToDigits_lt n b h


@[simp] theorem readInt_writeInt (i : Int) (rest : List Nat) :
    readInt (writeInt i ++ rest) = some (i, rest) := by
  rw [writeInt]
  by_cases h : i < 0
  · rw [if_pos h]
    simp only [List.cons_append, readInt, readNat_writeNat]
    congr 2
    omega
  · rw [if_neg h]
    simp only [List.cons_append, readInt, readNat_writeNat]
    congr 2
    omega


theorem writeInt_lt (i : Int) : ∀ b ∈ writeInt i, b < 256 := by
  intro b hb
  rw [writeInt] at hb
  rcases List.mem_cons.mp hb with h | h
  · split at h <;> omega
  · exact writeNat_lt _ b h


@[simp] theorem readBool_writeBool (b : Bool) (rest : List Nat) :
    readBool (writeBool b ++ rest) = some (b, rest) := by
  cases b <;> rfl


theorem writeBool_lt (x : Bool) : ∀ b ∈ writeBool x, b < 256 := by
  intro b hb
  cases x <;> simp [writeBool] at hb <;> omega


@[simp] theorem readChar_writeChar (c : Char) (rest : List Nat) :
    readChar (writeChar c ++ rest) = some (c, rest) := by
  rw [readChar, writeChar, readNat_writeNat]
  simp [Char.ofNat_toNat]


theorem readCountChar_join (cs : List Char) (rest : List Nat) :
    readCountChar cs.length ((cs.map writeChar).flatten ++ rest) = some (cs, rest) := by
  induction cs generalizing rest with
  | nil => rfl
  | cons c tl ih =>
    simp only [List.map_cons, List.flatten_cons, List.length_cons, List.append_assoc]
    simp only [readCountChar, readChar_writeChar, ih]


@[simp] theorem readString_writeString (s : String) (rest : List Nat) :
    readString (writeString s ++ rest) = some (s, rest) := by
  rw [writeString, List.append_assoc]
  simp only [readString, readNat_writeNat, readCountChar_join]


@[simp] theorem readString_writeString_nil (s : String) :
    readString (writeString s) = some (s, []) := by
  have := readString_writeString s []
  simpa using this


theorem writeString_lt (s : String) : ∀ b ∈ writeString s, b < 256 := by
  intro b hb
  rw [writeString] at hb
  rcases List.mem_append.mp hb with h | h
  · exact writeNat_lt _ b h
  · rcases List.mem_flatten.mp h with ⟨l, hl, hbl⟩
    rcases List.mem_map.mp hl with ⟨c, _, rfl⟩
    exact writeNat_lt _ b hbl


theorem readCountString_join (ss : List String) (rest : List Nat) :
    readCountString ss.length ((ss.map writeString).flatten ++ rest) = some (ss, rest) := by
  induction ss generalizing rest with
  | nil => rfl
  | cons s tl ih =>
    simp only [List.map_cons, List.flatten_cons, List.length_cons, List.append_assoc]
    simp only [readCountString, readString_writeString, ih]


@[simp] theorem readStringList_writeStringList (ss : List String) (rest : List Nat) :
    readStringList (writeStringList ss ++ rest) = some (ss, rest) := by
  rw [writeStringList, List.append_assoc]
  simp only [readStringList, readNat_writeNat, readCountString_join]


theorem writeStringList_lt (ss : List String) : ∀ b ∈ writeStringList ss, b < 256 := by
  intro b hb
  rw [writeStringList] at hb
  rcases List.mem_append.mp hb with h | h
  · exact writeNat_lt _ b h
  · rcases List.mem_flatten.mp h with ⟨l, hl, hbl⟩
    rcases List.mem_map.mp hl with ⟨s, _, rfl⟩
    exact writeString_lt _ b hbl


@[simp] theorem readEKU_writeEKU (u : ExtKeyUsagePurpose) (rest : List Nat) :
    readEKU (writeEKU u ++ rest) = some (u, rest) := by
  cases u <;> simp [writeEKU, ekuCode, readEKU]


theorem readCountEKU_join (us : List ExtKeyUsagePurpose) (rest : List Nat) :
    readCountEKU us.length ((us.map writeEKU).flatten ++ rest) = some (us, rest) := by
  induction us generalizing rest with
  | nil => rfl
  | cons u tl ih =>
    simp only [List.map_cons, List.flatten_cons, List.length_cons, List.append_assoc]
    simp only [readCountEKU, readEKU_writeEKU, ih]


@[simp] theorem readEKUList_writeEKUList (us : List ExtKeyUsagePurpose) (rest : List Nat) :
    readEKUList (writeEKUList us ++ rest) = some (us, rest) := by
  rw [writeEKUList, List.append_assoc]
  simp only [readEKUList, readNat_writeNat, readCountEKU_join]


theorem writeEKUList_lt (us : List ExtKeyUsagePurpose) : ∀ b ∈ writeEKUList us, b < 256 := by
  intro b hb
  rw [writeEKUList] at hb
  rcases List.mem_append.mp hb with h | h
  · exact writeNat_lt _ b h
  · rcases List.mem_flatten.mp h with ⟨l, hl, hbl⟩
    rcases List.mem_map.mp hl with ⟨u, _, rfl⟩
    exact writeNat_lt _ b hbl


@[simp] theorem readName_writeName (n : PkixName) (rest : List Nat) :
    readName (writeName n ++ rest) = some (n, rest) := by
  rw [writeName]
  simp only [List.append_assoc]
  simp only [readName, readStringList_writeStringList, readString_writeString]


theorem writeName_lt (n : PkixName) : ∀ b ∈ writeName n, b < 256 := by
  intro b hb
  rw [writeName] at hb
  simp only [List.append_assoc, List.mem_append] at hb
  rcases hb with h | h | h | h | h | h
  · exact writeStringList_lt _ b h
  · exact writeStringList_lt _ b h
  · exact writeStringList_lt _ b h
  · exact writeStringList_lt _ b h
  · exact writeStringList_lt _ b h
  · exact writeString_lt _ b h


theorem certBody_lt (c : Certificate) : ∀ b ∈ certBody c, b < 256 := by
  intro b hb
  rw [certBody] at hb
  rcases List.mem_cons.mp hb with h | h
  · rw [h, certTag]; omega
  · simp only [List.append_assoc, List.mem_append] at h
    rcases h with h | h | h | h | h | h | h | h | h | h | h | h
    · exact writeNat_lt _ b h
    · exact writeName_lt _ b h
    · exact writeName_lt _ b h
    · exact writeInt_lt _ b h
    · exact writeInt_lt _ b h
    · exact writeNat_lt _ b h
    · exact writeEKUList_lt _ b h
    · exact writeBool_lt _ b h
    · exact writeBool_lt _ b h
    · exact writeStringList_lt _ b h
    · exact writeNat_lt _ b h
    · exact writeNat_lt _ b h


theorem ParseCertificate_certBody (c : Certificate) :
    ParseCertificate (certBody c) = some (parsedCert c) := by
  conv_lhs => rw [certBody]
  rw [ParseCertificate]
  simp only [List.append_assoc]
  simp only [if_true]
  simp only [readNat_writeNat, readName_writeName, readInt_writeInt,
    readEKUList_writeEKUList, readBool_writeBool, readStringList_writeStringList,
    readNat_writeNat_nil]
  rw [parsedCert, certBody]
  simp only [List.append_assoc]


theorem b64index_b64char : ∀ i, i < 64 → b64index (b64char i) = i := by decide


theorem b64char_ne_61 (i : Nat) : b64char i ≠ 61 := by
  rw [b64char]; split_ifs <;> omega


theorem b64char_ne_10 (i : Nat) : b64char i ≠ 10 := by
  rw [b64char]; split_ifs <;> omega


theorem base64Encode_ne_10 (l : List Nat) : ∀ c ∈ base64Encode l, c ≠ 10 := by
  induction l using base64Encode.induct with
  | case1 => intro c hc; simp [base64Encode] at hc
  | case2 a =>
    intro c hc
    simp only [base64Encode, List.mem_cons, List.not_mem_nil, or_false] at hc
    rcases hc with h | h | h | h <;> subst h
    · exact b64char_ne_10 _
    · exact b64char_ne_10 _
    · omega
    · omega
  | case3 a b =>
    intro c hc
    simp only [base64Encode, List.mem_cons, List.not_mem_nil, or_false] at hc
    rcases hc with h | h | h | h <;> subst h
    · exact b64char_ne_10 _
    · exact b64char_ne_10 _
    · exact b64char_ne_10 _
    · omega
  | case4 a b cc rest ih =>
    intro c hc
    simp only [base64Encode, List.mem_cons] at hc
    rcases hc with h | h | h | h | h
    · subst h; exact b64char_ne_10 _
    · subst h; exact b64char_ne_10 _
    · subst h; exact b64char_ne_10 _
    · subst h; exact b64char_ne_10 _
    · exact ih c h


theorem base64Decode_base64Encode (l : List Nat) (hl : ∀ b ∈ l, b < 256) :
    base64Decode (base64Encode l) = some l := by
  induction l using base64Encode.induct with
  | case1 => simp [base64Encode, base64Decode]
  | case2 a =>
    have ha : a < 256 := hl a (by simp)
    have h1 : a / 4 < 64 := by omega
    have h2 : a % 4 * 16 < 64 := by omega
    simp only [base64Encode, base64Decode, List.isEmpty_nil, beq_self_eq_true,
      Bool.and_true, if_true, b64index_b64char _ h1, b64index_b64char _ h2,
      Option.some.injEq, List.cons.injEq, and_true]
    omega
  | case3 a b =>
    have ha : a < 256 := hl a (by simp)
    have hb : b < 256 := hl b (by simp)
    have h1 : a / 4 < 64 := by omega
    have h2 : a % 4 * 16 + b / 16 < 64 := by omega
    have h3 : b % 16 * 4 < 64 := by omega
    have hne : (b64char (b % 16 * 4) == 61) = false := by
      simp [b64char_ne_61]
    simp only [base64Encode, base64Decode, List.isEmpty_nil, beq_self_eq_true,
      Bool.and_true, if_true, hne, Bool.false_eq_true, if_false,
      b64index_b64char _ h1, b64index_b64char _ h2, b64index_b64char _ h3,
      Option.some.injEq, List.cons.injEq, and_true]
    exact ⟨by omega, by omega⟩
  | case4 a b c rest ih =>
    have ha : a < 256 := hl a (by simp)
    have hb : b < 256 := hl b (by simp)
    have hc : c < 256 := hl c (by simp)
    have ihr := ih (fun x hx => hl x (by simp [hx]))
    have h1 : a / 4 < 64 := by omega
    have h2 : a % 4 * 16 + b / 16 < 64 := by omega
    have h3 : b % 16 * 4 + c / 64 < 64 := by omega
    have h4 : c % 64 < 64 := by omega
    have hne : (b64char (c % 64) == 61) = false := by
      simp [b64char_ne_61]
    simp only [base64Encode, base64Decode, hne, Bool.and_false, Bool.false_eq_true,
      if_false, ihr, b64index_b64char _ h1, b64index_b64char _ h2,
      b64index_b64char _ h3, b64index_b64char _ h4,
      Option.some.injEq, List.cons.injEq]
    exact ⟨by omega, by omega, by omega, trivial⟩


@[simp] theorem dropLit_self (lit rest : List Nat) : dropLit lit (lit ++ rest) = some rest := by
  induction lit with
  | nil => rfl
  | cons p ps ih => simp [dropLit, ih]


theorem takeWhile_middle (p : Nat → Bool) (xs : List Nat) (y : Nat) (ys : List Nat)
    (hx : ∀ a ∈ xs, p a = true) (hy : p y = false) :
    (xs ++ y :: ys).takeWhile p = xs ∧ (xs ++ y :: ys).dropWhile p = y :: ys := by
  induction xs with
  | nil => simp [List.takeWhile, List.dropWhile, hy]
  | cons a l ih =>
    have ha : p a = true := hx a (by simp)
    have ihl := ih (fun b hb => hx b (by simp [hb]))
    constructor
    · rw [List.cons_append, List.takeWhile_cons, ha]
      simp only [if_true, ihl.1]
    · rw [List.cons_append, List.dropWhile_cons, ha]
      simp only [if_true, ihl.2]


theorem pemLabelSplit (label rest : List Nat) (hlabel : ∀ b ∈ label, b ≠ 45) :
    (label ++ (pemDashesNL ++ rest)).takeWhile (fun b => !(b == 45)) = label ∧
      (label ++ (pemDashesNL ++ rest)).dropWhile (fun b => !(b == 45)) =
        pemDashesNL ++ rest := by
  have heq : label ++ (pemDashesNL ++ rest) = label ++ 45 :: ([45, 45, 45, 45, 10] ++ rest) := by
    simp [pemDashesNL]
  have h := takeWhile_middle (fun b => !(b == 45)) label 45 ([45, 45, 45, 45, 10] ++ rest)
    (by intro a ha; simp [hlabel a ha]) (by simp)
  refine ⟨by rw [heq, h.1], ?_⟩
  rw [heq, h.2]
  simp [pemDashesNL]


theorem pemB64Split (bytes rest : List Nat) :
    (base64Encode bytes ++ 10 :: rest).takeWhile (fun b => !(b == 10)) =
      base64Encode bytes ∧
      (base64Encode bytes ++ 10 :: rest).dropWhile (fun b => !(b == 10)) = 10 :: rest :=
  takeWhile_middle (fun b => !(b == 10)) (base64Encode bytes) 10 rest
    (by intro a ha; simp [base64Encode_ne_10 bytes a ha]) (by simp)


theorem pemDecode_pemEncodeToMemory (label bytes : List Nat)
    (hlabel : ∀ b ∈ label, b ≠ 45) (hbytes : ∀ b ∈ bytes, b < 256) :
    pemDecode (pemEncodeToMemory label bytes) = some (label, bytes) := by
  rw [pemEncodeToMemory, pemDecode]
  simp only [List.append_assoc, List.cons_append]
  simp only [dropLit_self]
  rw [(pemLabelSplit label _ hlabel).1, (pemLabelSplit label _ hlabel).2]
  simp only [dropLit_self]
  rw [(pemB64Split bytes _).1, (pemB64Split bytes _).2]
  have hEnd : dropLit (10 :: pemEndMark) (10 :: (pemEndMark ++ (label ++ pemDashesNL))) =
      some (label ++ pemDashesNL) := by
    simpa using dropLit_self (10 :: pemEndMark) (label ++ pemDashesNL)
  simp only [hEnd]
  have hLast : dropLit (label ++ pemDashesNL) (label ++ pemDashesNL) = some [] := by
    simpa using dropLit_self (label ++ pemDashesNL) []
  simp only [hLast]
  rw [base64Decode_base64Encode bytes hbytes]


theorem ParsePKCS8_MarshalPKCS8 (key : RSAPrivateKey) :
    ParsePKCS8PrivateKey (MarshalPKCS8PrivateKey key) = some key := by
  rw [MarshalPKCS8PrivateKey, ParsePKCS8PrivateKey]
  simp only [if_true, readNat_writeNat]
  have : readInt (writeInt key.Bits) = some (key.Bits, []) := by
    simpa using readInt_writeInt key.Bits []
  simp only [this]


theorem MarshalPKCS8_lt (key : RSAPrivateKey) :
    ∀ b ∈ MarshalPKCS8PrivateKey key, b < 256 := by
  intro b hb
  rw [MarshalPKCS8PrivateKey] at hb
  rcases List.mem_cons.mp hb with h | h
  · rw [h, pkcs8Tag]; omega
  · rcases List.mem_append.mp h with h | h
    · exact writeNat_lt _ b h
    · exact writeInt_lt _ b h


theorem certTag_notMem_pkcs8 (key : RSAPrivateKey) :
    ParseCertificate (MarshalPKCS8PrivateKey key) = none := by
  rw [MarshalPKCS8PrivateKey, ParseCertificate]
  simp [certTag, pkcs8Tag]


theorem certificateLabel_ne_45 : ∀ b ∈ certificateLabel, b ≠ 45 := by decide


theorem privateKeyLabel_ne_45 : ∀ b ∈ privateKeyLabel, b ≠ 45 := by decide


/-! ## Characterisations of the generator results -/


theorem GenerateRootCA_eq (cfg : CertificateConfig) (e : Entropy) :
    (NewGenerator (some cfg)).GenerateRootCA e =
      if cfg.KeySize < 1024 then .error .invalidKeySize
      else
        .ok (parsedCert (applySign
            (rootCATemplate (cfg.GetRootCAOptions e.Now) (e.SerialSeed % 2 ^ 128))
            (rootCATemplate (cfg.GetRootCAOptions e.Now) (e.SerialSeed % 2 ^ 128))
            e.KeySeed e.KeySeed),
          rsaGenerateKey e.KeySeed cfg.KeySize) := by
  rw [Generator.GenerateRootCA, Generator.GeneratePrivateKey]
  by_cases h : cfg.KeySize < 1024
  · simp only [NewGenerator, h, if_true]
  · simp only [NewGenerator, h, if_false]
    rw [CreateCertificate, ParseCertificate_certBody, rsaGenerateKey]


theorem GenerateLeafCertificate_eq (cfg : CertificateConfig) (caCert : Certificate)
    (caKey : RSAPrivateKey) (e : Entropy) :
    (NewGenerator (some cfg)).GenerateLeafCertificate caCert caKey e =
      if cfg.KeySize < 1024 then .error .invalidKeySize
      else
        .ok (parsedCert (applySign
            (leafTemplate (cfg.GetLeafCertOptions e.Now) (e.SerialSeed % 2 ^ 128))
            caCert e.KeySeed caKey.KeyId),
          rsaGenerateKey e.KeySeed cfg.KeySize) := by
  rw [Generator.GenerateLeafCertificate, Generator.GeneratePrivateKey]
  by_cases h : cfg.KeySize < 1024
  · simp only [NewGenerator, h, if_true]
  · simp only [NewGenerator, h, if_false]
    rw [CreateCertificate, ParseCertificate_certBody, rsaGenerateKey]


theorem startsWithChars_self_append (pat rest : List Char) :
    startsWithChars pat (pat ++ rest) = true := by
  induction pat with
  | nil => rfl
  | cons p ps ih => simp [startsWithChars, ih]


theorem hasSubChars_start (pat rest : List Char) :
    hasSubChars pat (pat ++ rest) = true := by
  cases hpr : pat ++ rest with
  | nil =>
    have hp : pat = [] := (List.append_eq_nil.mp hpr).1
    subst hp
    rfl
  | cons c cs =>
    have h1 : startsWithChars pat (c :: cs) = true := by
      rw [← hpr]; exact startsWithChars_self_append pat rest
    rw [hasSubChars, h1]
    simp


theorem hasSubChars_append (pat x rest : List Char) :
    hasSubChars pat (x ++ pat ++ rest) = true := by
  induction x with
  | nil => simpa using hasSubChars_start pat rest
  | cons c cs ih =>
    rw [show ((c :: cs : List Char) ++ pat ++ rest) = c :: (cs ++ pat ++ rest) by simp,
      hasSubChars, ih]
    simp


theorem hasSubChars_append_right (pat x y : List Char) (h : hasSubChars pat y = true) :
    hasSubChars pat (x ++ y) = true := by
  induction x with
  | nil => simpa using h
  | cons c cs ih =>
    rw [List.cons_append, hasSubChars, ih]
    simp


theorem hasSubChars_of_endsWith (pat l : List Char) (h : endsWithChars pat l = true) :
    hasSubChars pat l = true := by
  rw [endsWithChars] at h
  simp only [Bool.and_eq_true, decide_eq_true_eq, beq_iff_eq] at h
  have hsplit : l = l.take (l.length - pat.length) ++ pat := by
    conv_lhs => rw [← List.take_append_drop (l.length - pat.length) l]
    rw [h.2]
  rw [hsplit]
  have := hasSubChars_append pat (l.take (l.length - pat.length)) []
  simpa using this


/-! ## Claim theorems -/


/-- C1: for every configuration, a certificate returned by `GenerateRootCA`
has `IsCA = true`, verifies its own signature via `CheckSignatureFrom`, has
key usage exactly certificate-signing plus CRL-signing, lists exactly the
configured domain as its DNS names, and expires exactly 1024 days after its
own notBefore, independent of the configured `ValidityDays`. -/
theorem rootCA_certificate_properties (cfg : CertificateConfig) (e : Entropy)
    (cert : Certificate) (key : RSAPrivateKey)
    (h : (NewGenerator (some cfg)).GenerateRootCA e = .ok (cert, key)) :
    cert.IsCA = true ∧
    CheckSignatureFrom cert cert = true ∧
    cert.KeyUsage = KeyUsageCertSign ||| KeyUsageCRLSign ∧
    cert.DNSNames = [cfg.Domain] ∧
    cert.NotAfter = cert.NotBefore + 1024 * 24 * nsPerHour := by
  rw [GenerateRootCA_eq] at h
  by_cases hk : cfg.KeySize < 1024
  · rw [if_pos hk] at h
    exact absurd h (by simp)
  · rw [if_neg hk] at h
    simp only [Except.ok.injEq, Prod.mk.injEq] at h
    obtain ⟨hc, hkey⟩ := h
    subst hc
    refine ⟨rfl, ?_, rfl, rfl, ?_⟩
    · simp [CheckSignatureFrom, parsedCert, applySign, rootCATemplate,
        KeyUsageCertSign, KeyUsageCRLSign]
    · simp only [parsedCert, applySign, rootCATemplate,
        CertificateConfig.GetRootCAOptions, truncSec, nsPerHour, nsPerSecond]
      omega


/-- Witness for C1: the concrete run of `GenerateRootCA` on `cfgW` and
`entW1`. -/
theorem rootCA_certificate_properties_witness :
    caW.IsCA = true ∧
    CheckSignatureFrom caW caW = true ∧
    caW.KeyUsage = KeyUsageCertSign ||| KeyUsageCRLSign ∧
    caW.DNSNames = [cfgW.Domain] ∧
    caW.NotAfter = caW.NotBefore + 1024 * 24 * nsPerHour := by
  have hroot : (NewGenerator (some cfgW)).GenerateRootCA entW1 = .ok (caW, keyW) := by
    rw [GenerateRootCA_eq, if_neg (by norm_num [cfgW])]
    simp [caW, keyW, rootTW, entW1]
  exact rootCA_certificate_properties cfgW entW1 caW keyW hroot


/-- C3: `GeneratePrivateKey` errors exactly when the configuration is absent
or the configured key size is below 1024 (including zero and negative sizes);
for every present configuration with key size at least 1024 it returns a key
whose modulus bit length equals the requested size exactly. -/
theorem generatePrivateKey_spec (seed : Nat) (cfg : CertificateConfig) :
    (NewGenerator none).GeneratePrivateKey seed = .error .nilConfig ∧
    (cfg.KeySize < 1024 →
      (NewGenerator (some cfg)).GeneratePrivateKey seed = .error .invalidKeySize) ∧
    (1024 ≤ cfg.KeySize →
      (NewGenerator (some cfg)).GeneratePrivateKey seed =
        .ok (rsaGenerateKey seed cfg.KeySize) ∧
      (rsaGenerateKey seed cfg.KeySize).Bits = cfg.KeySize) ∧
    (∀ g : Generator, (∃ err, g.GeneratePrivateKey seed = .error err) ↔
      g.config = none ∨ ∃ c, g.config = some c ∧ c.KeySize < 1024) := by
  refine ⟨rfl, ?_, ?_, ?_⟩
  · intro h
    simp [Generator.GeneratePrivateKey, NewGenerator, h]
  · intro h
    constructor
    · simp [Generator.GeneratePrivateKey, NewGenerator]
      omega
    · rfl
  · intro g
    constructor
    · rintro ⟨err, herr⟩
      rw [Generator.GeneratePrivateKey] at herr
      cases hg : g.config with
      | none => exact Or.inl rfl
      | some c =>
        rw [hg] at herr
        right
        refine ⟨c, rfl, ?_⟩
        by_contra hlt
        simp [hlt] at herr
    · rintro (hnone | ⟨c, hsome, hlt⟩)
      · exact ⟨.nilConfig, by simp [Generator.GeneratePrivateKey, hnone]⟩
      · exact ⟨.invalidKeySize, by simp [Generator.GeneratePrivateKey, hsome, hlt]⟩


/-- Witness for C3 at seed 0 and the concrete configuration `cfgW`. -/
theorem generatePrivateKey_spec_witness :
    (NewGenerator none).GeneratePrivateKey 0 = .error .nilConfig ∧
    (cfgW.KeySize < 1024 →
      (NewGenerator (some cfgW)).GeneratePrivateKey 0 = .error .invalidKeySize) ∧
    (1024 ≤ cfgW.KeySize →
      (NewGenerator (some cfgW)).GeneratePrivateKey 0 =
        .ok (rsaGenerateKey 0 cfgW.KeySize) ∧
      (rsaGenerateKey 0 cfgW.KeySize).Bits = cfgW.KeySize) ∧
    (∀ g : Generator, (∃ err, g.GeneratePrivateKey 0 = .error err) ↔
      g.config = none ∨ ∃ c, g.config = some c ∧ c.KeySize < 1024) :=
  generatePrivateKey_spec 0 cfgW


/-- C6: with an empty configured domain (and an otherwise valid key size)
`GenerateRootCA` succeeds and the certificate has an empty common name and a
DNS names list holding exactly one empty string. -/
theorem emptyDomain_rootCA (cfg : CertificateConfig) (e : Entropy)
    (hdom : cfg.Domain = "") (hks : 1024 ≤ cfg.KeySize) :
    ∃ cert key, (NewGenerator (some cfg)).GenerateRootCA e = .ok (cert, key) ∧
      cert.Subject.CommonName = "" ∧ cert.DNSNames = [""] := by
  have hk : ¬ cfg.KeySize < 1024 := by omega
  refine ⟨_, _, by rw [GenerateRootCA_eq, if_neg hk], ?_, ?_⟩
  · simp [parsedCert, applySign, rootCATemplate, CertificateConfig.GetRootCAOptions, hdom]
  · simp [parsedCert, applySign, rootCATemplate, CertificateConfig.GetRootCAOptions, hdom]


/-- Witness for C6 at the concrete configuration `cfgW` with its domain set
empty. -/
theorem emptyDomain_rootCA_witness :
    ∃ cert key,
      (NewGenerator (some { cfgW with Domain := "" })).GenerateRootCA entW1 =
        .ok (cert, key) ∧
      cert.Subject.CommonName = "" ∧ cert.DNSNames = [""] :=
  emptyDomain_rootCA { cfgW with Domain := "" } entW1 rfl (by norm_num [cfgW])


/-- C7: the leaf options record carries the four-flag key-usage list, while
the certificate actually signed by `GenerateLeafCertificate` carries exactly
digital-signature plus key-encipherment; the template builder never consults
the options record's key-usage list. -/
theorem leafKeyUsage_discrepancy (cfg : CertificateConfig) (e : Entropy)
    (caCert : Certificate) (caKey : RSAPrivateKey)
    (cert : Certificate) (key : RSAPrivateKey)
    (h : (NewGenerator (some cfg)).GenerateLeafCertificate caCert caKey e = .ok (cert, key)) :
    (∀ now, (cfg.GetLeafCertOptions now).KeyUsage =
      ["digitalSignature", "nonRepudiation", "keyEncipherment", "dataEncipherment"]) ∧
    cert.KeyUsage = KeyUsageDigitalSignature ||| KeyUsageKeyEncipherment ∧
    (∀ (opts : CertificateOptions) (ku : List String) (serial : Nat),
      leafTemplate { opts with KeyUsage := ku } serial = leafTemplate opts serial) := by
  rw [GenerateLeafCertificate_eq] at h
  by_cases hk : cfg.KeySize < 1024
  · rw [if_pos hk] at h
    exact absurd h (by simp)
  · rw [if_neg hk] at h
    simp only [Except.ok.injEq, Prod.mk.injEq] at h
    obtain ⟨hc, hkey⟩ := h
    subst hc
    exact ⟨fun _ => rfl, rfl, fun _ _ _ => rfl⟩


/-- Witness for C7: the concrete leaf run on `cfgW`, `caW`, `keyW` and
`entW2`. -/
theorem leafKeyUsage_discrepancy_witness :
    (∀ now, (cfgW.GetLeafCertOptions now).KeyUsage =
      ["digitalSignature", "nonRepudiation", "keyEncipherment", "dataEncipherment"]) ∧
    leafW.KeyUsage = KeyUsageDigitalSignature ||| KeyUsageKeyEncipherment ∧
    (∀ (opts : CertificateOptions) (ku : List String) (serial : Nat),
      leafTemplate { opts with KeyUsage := ku } serial = leafTemplate opts serial) := by
  have hleaf : (NewGenerator (some cfgW)).GenerateLeafCertificate caW keyW entW2 =
      .ok (leafW, leafKeyW) := by
    rw [GenerateLeafCertificate_eq, if_neg (by norm_num [cfgW])]
    simp [leafW, leafKeyW, leafTW, caW, keyW, rootTW, entW1, entW2, rsaGenerateKey]
  exact leafKeyUsage_discrepancy cfgW entW2 caW keyW leafW leafKeyW hleaf


/-- C9: every certificate produced by `GenerateRootCA` carries the extended
key usage list [serverAuth] even though the configuration-derived root CA
options record leaves the extended key usage list empty. -/
theorem rootCA_extKeyUsage_implicit (cfg : CertificateConfig) (e : Entropy)
    (cert : Certificate) (key : RSAPrivateKey)
    (h : (NewGenerator (some cfg)).GenerateRootCA e = .ok (cert, key)) :
    cert.ExtKeyUsage = [.serverAuth] ∧
    ∀ now, (cfg.GetRootCAOptions now).ExtKeyUsage = [] := by
  rw [GenerateRootCA_eq] at h
  by_cases hk : cfg.KeySize < 1024
  · rw [if_pos hk] at h
    exact absurd h (by simp)
  · rw [if_neg hk] at h
    simp only [Except.ok.injEq, Prod.mk.injEq] at h
    obtain ⟨hc, hkey⟩ := h
    subst hc
    exact ⟨rfl, fun _ => rfl⟩


/-- Witness for C9: the concrete root CA run on `cfgW` and `entW1`. -/
theorem rootCA_extKeyUsage_implicit_witness :
    caW.ExtKeyUsage = [.serverAuth] ∧
    ∀ now, (cfgW.GetRootCAOptions now).ExtKeyUsage = [] := by
  have hroot : (NewGenerator (some cfgW)).GenerateRootCA entW1 = .ok (caW, keyW) := by
    rw [GenerateRootCA_eq, if_neg (by norm_num [cfgW])]
    simp [caW, keyW, rootTW, entW1]
  exact rootCA_extKeyUsage_implicit cfgW entW1 caW keyW hroot




/-- C2: for every configuration with `ValidityDays` in range and every CA
pair produced by `GenerateRootCA`, a certificate returned by
`GenerateLeafCertificate` has `IsCA = false`, verifies against the supplied
CA certificate, has an extended key usage containing both server-auth and
client-auth, and its validity span equals `ValidityDays` days within a one
minute tolerance. -/
theorem leafCertificate_properties (cfg : CertificateConfig) (e1 e2 : Entropy)
    (caCert : Certificate) (caKey : RSAPrivateKey)
    (cert : Certificate) (key : RSAPrivateKey)
    (_hdays1 : 1 ≤ cfg.ValidityDays) (_hdays2 : cfg.ValidityDays ≤ 36500)
    (hca : (NewGenerator (some cfg)).GenerateRootCA e1 = .ok (caCert, caKey))
    (h : (NewGenerator (some cfg)).GenerateLeafCertificate caCert caKey e2 = .ok (cert, key)) :
    cert.IsCA = false ∧
    CheckSignatureFrom cert caCert = true ∧
    ExtKeyUsagePurpose.serverAuth ∈ cert.ExtKeyUsage ∧
    ExtKeyUsagePurpose.clientAuth ∈ cert.ExtKeyUsage ∧
    (cert.NotAfter - cert.NotBefore - cfg.ValidityDays * 24 * nsPerHour).natAbs ≤
      60000000000 := by
  rw [GenerateRootCA_eq] at hca
  rw [GenerateLeafCertificate_eq] at h
  by_cases hk : cfg.KeySize < 1024
  · rw [if_pos hk] at hca
    exact absurd hca (by simp)
  · rw [if_neg hk] at hca
    rw [if_neg hk] at h
    simp only [Except.ok.injEq, Prod.mk.injEq] at hca h
    obtain ⟨hcac, hcak⟩ := hca
    obtain ⟨hc, hkey⟩ := h
    subst hcac
    subst hcak
    subst hc
    refine ⟨rfl, ?_, ?_, ?_, ?_⟩
    · simp [CheckSignatureFrom, parsedCert, applySign, rootCATemplate, leafTemplate,
        rsaGenerateKey, KeyUsageCertSign, KeyUsageCRLSign]
    · simp [parsedCert, applySign, leafTemplate]
    · simp [parsedCert, applySign, leafTemplate]
    · simp only [parsedCert, applySign, leafTemplate,
        CertificateConfig.GetLeafCertOptions, truncSec, nsPerHour, nsPerSecond]
      omega


/-- Witness for C2: the concrete chained run on `cfgW`, `entW1` and `entW2`. -/
theorem leafCertificate_properties_witness :
    leafW.IsCA = false ∧
    CheckSignatureFrom leafW caW = true ∧
    ExtKeyUsagePurpose.serverAuth ∈ leafW.ExtKeyUsage ∧
    ExtKeyUsagePurpose.clientAuth ∈ leafW.ExtKeyUsage ∧
    (leafW.NotAfter - leafW.NotBefore - cfgW.ValidityDays * 24 * nsPerHour).natAbs ≤
      60000000000 := by
  have hca : (NewGenerator (some cfgW)).GenerateRootCA entW1 = .ok (caW, keyW) := by
    rw [GenerateRootCA_eq, if_neg (by norm_num [cfgW])]
    simp [caW, keyW, rootTW, entW1]
  have hleaf : (NewGenerator (some cfgW)).GenerateLeafCertificate caW keyW entW2 =
      .ok (leafW, leafKeyW) := by
    rw [GenerateLeafCertificate_eq, if_neg (by norm_num [cfgW])]
    simp [leafW, leafKeyW, leafTW, caW, keyW, rootTW, entW1, entW2, rsaGenerateKey]
  exact leafCertificate_properties cfgW entW1 entW2 caW keyW leafW leafKeyW
    (by norm_num [cfgW]) (by norm_num [cfgW]) hca hleaf


/-- C4: encode-then-decode is lossless in both directions.  Decoding an
encoded certificate returns the certificate itself (so the raw bytes agree),
decoding an encoded private key returns the key itself, and re-encoding a
previously encoded artifact reproduces the original PEM bytes. -/
theorem pem_roundtrip (c : Certificate) (hc : c.Raw = certBody c) (k : RSAPrivateKey) :
    EncodeCertificateToPEM (some c) = .ok (pemEncodeToMemory certificateLabel c.Raw) ∧
    DecodePEMCertificate (pemEncodeToMemory certificateLabel c.Raw) = .ok c ∧
    (∀ c2, DecodePEMCertificate (pemEncodeToMemory certificateLabel c.Raw) = .ok c2 →
      EncodeCertificateToPEM (some c2) = .ok (pemEncodeToMemory certificateLabel c.Raw)) ∧
    EncodePrivateKeyToPEM (some k) =
      .ok (pemEncodeToMemory privateKeyLabel (MarshalPKCS8PrivateKey k)) ∧
    DecodePEMPrivateKey (pemEncodeToMemory privateKeyLabel (MarshalPKCS8PrivateKey k)) =
      .ok k ∧
    (∀ k2, DecodePEMPrivateKey (pemEncodeToMemory privateKeyLabel
        (MarshalPKCS8PrivateKey k)) = .ok k2 →
      EncodePrivateKeyToPEM (some k2) =
        .ok (pemEncodeToMemory privateKeyLabel (MarshalPKCS8PrivateKey k))) := by
  have hbytes : ∀ b ∈ c.Raw, b < 256 := by
    rw [hc]; exact certBody_lt c
  have hpc : parsedCert c = c := by
    rw [parsedCert, ← hc]
  have hdec : DecodePEMCertificate (pemEncodeToMemory certificateLabel c.Raw) = .ok c := by
    rw [DecodePEMCertificate]
    simp only [pemDecode_pemEncodeToMemory certificateLabel c.Raw certificateLabel_ne_45
      hbytes]
    simp only [hc, ParseCertificate_certBody, hpc]
  have hdeck : DecodePEMPrivateKey (pemEncodeToMemory privateKeyLabel
      (MarshalPKCS8PrivateKey k)) = .ok k := by
    rw [DecodePEMPrivateKey]
    simp only [pemDecode_pemEncodeToMemory privateKeyLabel (MarshalPKCS8PrivateKey k)
      privateKeyLabel_ne_45 (MarshalPKCS8_lt k), ParsePKCS8_MarshalPKCS8]
  refine ⟨rfl, hdec, ?_, rfl, hdeck, ?_⟩
  · intro c2 h2
    rw [hdec] at h2
    simp only [Except.ok.injEq] at h2
    subst h2
    rfl
  · intro k2 h2
    rw [hdeck] at h2
    simp only [Except.ok.injEq] at h2
    subst h2
    rfl


/-- Witness for C4 at the concrete certificate `certSmall` and key
`keySmall`. -/
theorem pem_roundtrip_witness :
    EncodeCertificateToPEM (some certSmall) =
      .ok (pemEncodeToMemory certificateLabel certSmall.Raw) ∧
    DecodePEMCertificate (pemEncodeToMemory certificateLabel certSmall.Raw) =
      .ok certSmall ∧
    (∀ c2, DecodePEMCertificate (pemEncodeToMemory certificateLabel certSmall.Raw) =
        .ok c2 →
      EncodeCertificateToPEM (some c2) =
        .ok (pemEncodeToMemory certificateLabel certSmall.Raw)) ∧
    EncodePrivateKeyToPEM (some keySmall) =
      .ok (pemEncodeToMemory privateKeyLabel (MarshalPKCS8PrivateKey keySmall)) ∧
    DecodePEMPrivateKey (pemEncodeToMemory privateKeyLabel
      (MarshalPKCS8PrivateKey keySmall)) = .ok keySmall ∧
    (∀ k2, DecodePEMPrivateKey (pemEncodeToMemory privateKeyLabel
        (MarshalPKCS8PrivateKey keySmall)) = .ok k2 →
      EncodePrivateKeyToPEM (some k2) =
        .ok (pemEncodeToMemory privateKeyLabel (MarshalPKCS8PrivateKey keySmall))) :=
  pem_roundtrip certSmall rfl keySmall


/-- C5 counterexample: a well-formed PEM envelope labelled "PRIVATE KEY"
whose inner bytes are valid certificate DER is decoded successfully by
`DecodePEMCertificate`, not rejected, so a wrong-label envelope does not
always fail. -/
theorem decodePEM_wrongLabel_counterexample :
    privateKeyLabel ≠ certificateLabel ∧
    DecodePEMCertificate (pemEncodeToMemory privateKeyLabel (certBody certSmall)) =
      .ok (parsedCert certSmall) := by
  constructor
  · decide
  · rw [DecodePEMCertificate]
    simp only [pemDecode_pemEncodeToMemory privateKeyLabel (certBody certSmall)
      privateKeyLabel_ne_45 (certBody_lt certSmall), ParseCertificate_certBody]


/-- C5 amended: `DecodePEMCertificate` never examines the envelope label; on
a well-formed envelope it succeeds exactly when the inner bytes parse as a
certificate.  A wrong-label envelope whose payload is an actual PKCS#8
private key fails with a parse error, but only because the payload is not
certificate DER. -/
theorem decodePEMCertificate_ignores_label (label d : List Nat) (k : RSAPrivateKey)
    (hlabel : ∀ b ∈ label, b ≠ 45) (hd : ∀ b ∈ d, b < 256) :
    (∀ c, ParseCertificate d = some c →
      DecodePEMCertificate (pemEncodeToMemory label d) = .ok c) ∧
    (ParseCertificate d = none →
      DecodePEMCertificate (pemEncodeToMemory label d) = .error .parseFailed) ∧
    DecodePEMCertificate (pemEncodeToMemory privateKeyLabel
      (MarshalPKCS8PrivateKey k)) = .error .parseFailed := by
  refine ⟨?_, ?_, ?_⟩
  · intro c hcd
    rw [DecodePEMCertificate]
    simp only [pemDecode_pemEncodeToMemory label d hlabel hd, hcd]
  · intro hcd
    rw [DecodePEMCertificate]
    simp only [pemDecode_pemEncodeToMemory label d hlabel hd, hcd]
  · rw [DecodePEMCertificate]
    simp only [pemDecode_pemEncodeToMemory privateKeyLabel (MarshalPKCS8PrivateKey k)
      privateKeyLabel_ne_45 (MarshalPKCS8_lt k), certTag_notMem_pkcs8]


/-- Witness for the C5 amended theorem at a concrete label, payload and key. -/
theorem decodePEMCertificate_ignores_label_witness :
    (∀ c, ParseCertificate (certBody certSmall) = some c →
      DecodePEMCertificate (pemEncodeToMemory privateKeyLabel (certBody certSmall)) =
        .ok c) ∧
    (ParseCertificate (certBody certSmall) = none →
      DecodePEMCertificate (pemEncodeToMemory privateKeyLabel (certBody certSmall)) =
        .error .parseFailed) ∧
    DecodePEMCertificate (pemEncodeToMemory privateKeyLabel
      (MarshalPKCS8PrivateKey keySmall)) = .error .parseFailed :=
  decodePEMCertificate_ignores_label privateKeyLabel (certBody certSmall) keySmall
    privateKeyLabel_ne_45 (certBody_lt certSmall)


/-- C8 counterexample: `WriteFile` keys its permission choice on a substring
test, so the path "notes.keyhole.txt", which is not a key file (its
extension is not ".key"), is nevertheless written with mode 0600 rather
than 0644. -/
theorem writeFile_perm_counterexample :
    endsWithChars ".key".data "notes.keyhole.txt".data = false ∧
    ((NewFileWriter "example.com").WriteFile "notes.keyhole.txt" []).perm = 0o600 := by
  constructor
  · decide
  · decide


/-- C8 amended: a path ending in ".key" is always written with mode 0600 and
a path without ".key" anywhere is always written with mode 0644, because the
permission choice tests whether the path contains ".key" as a substring; in
particular both generated key paths get mode 0600 for every domain. -/
theorem writeFile_perm_spec (fw : FileWriter) (path : String) (data : List Nat) :
    (endsWithChars ".key".data path.data = true →
      (fw.WriteFile path data).perm = 0o600) ∧
    (hasSubChars ".key".data path.data = false →
      (fw.WriteFile path data).perm = 0o644) ∧
    (∀ (domain : String) (dat : List Nat),
      (((NewFileWriter domain).WriteFile ((NewFileWriter domain).GetRootKeyPath) dat).perm =
        0o600) ∧
      (((NewFileWriter domain).WriteFile ((NewFileWriter domain).GetLeafKeyPath) dat).perm =
        0o600)) := by
  refine ⟨?_, ?_, ?_⟩
  · intro h
    rw [FileWriter.WriteFile]
    simp only [goStringsContains, hasSubChars_of_endsWith _ _ h, if_true]
  · intro h
    rw [FileWriter.WriteFile]
    simp only [goStringsContains, h, Bool.false_eq_true, if_false]
  · intro domain dat
    constructor
    · rw [FileWriter.WriteFile]
      have hsub : goStringsContains ((NewFileWriter domain).GetRootKeyPath) ".key" = true := by
        rw [goStringsContains, FileWriter.GetRootKeyPath, String.data_append]
        exact hasSubChars_append_right _ _ _ (by decide)
      rw [hsub]
      rfl
    · rw [FileWriter.WriteFile]
      have hsub : goStringsContains ((NewFileWriter domain).GetLeafKeyPath) ".key" = true := by
        rw [goStringsContains, FileWriter.GetLeafKeyPath, String.data_append]
        exact hasSubChars_append_right _ _ _ (by decide)
      rw [hsub]
      rfl


/-- Witness for the C8 amended theorem at a concrete writer and path. -/
theorem writeFile_perm_spec_witness :
    (endsWithChars ".key".data "a_rootCA.key".data = true →
      ((NewFileWriter "a.example.com").WriteFile "a_rootCA.key" []).perm = 0o600) ∧
    (hasSubChars ".key".data "a_rootCA.key".data = false →
      ((NewFileWriter "a.example.com").WriteFile "a_rootCA.key" []).perm = 0o644) ∧
    (∀ (domain : String) (dat : List Nat),
      (((NewFileWriter domain).WriteFile ((NewFileWriter domain).GetRootKeyPath) dat).perm =
        0o600) ∧
      (((NewFileWriter domain).WriteFile ((NewFileWriter domain).GetLeafKeyPath) dat).perm =
        0o600)) :=
  writeFile_perm_spec (NewFileWriter "a.example.com") "a_rootCA.key" []


/-- C10: `ConvertCertificateToBase64DER` pairs every returned value with a
nil error, and on a nil certificate it dereferences the nil pointer instead
of returning an error, unlike `EncodeCertificateToPEM` and
`EncodePrivateKeyToPEM`, which return explicit errors on nil input. -/
theorem convertCertificateToBase64DER_nil_behaviour (c : Certificate) :
    ConvertCertificateToBase64DER (some c) = .ok (EncodeDERToBase64 c.Raw) ∧
    ConvertCertificateToBase64DER none = .nilDereference ∧
    EncodeCertificateToPEM none = .error .nilCertificate ∧
    EncodePrivateKeyToPEM none = .error .nilKey :=
  ⟨rfl, rfl, rfl, rfl⟩



end Certgen
